import Mathlib

/-!
Shallow embedding of `src/api/server.js`: a parcel-status API backed by three
tables (`predios`, `predio_logs`, `user_sessions`). Timestamps are modelled as
naturals; request bodies carry JSON fields that may be absent, null, or a
string; each endpoint becomes a pure function from a database state (and the
request) to a response and a new state.
-/

/-- A row of the `predios` table: current state, one row per parcel id
(`updated_at` is irrelevant to all properties and omitted). -/
structure Predio where
  id_predio : String
  status : String
  seccion : Option String
  deriving DecidableEq, Repr

/-- A row of the append-only `predio_logs` table. -/
structure PredioLog where
  id_predio : String
  status : String
  seccion : Option String
  usuario : Option String
  created_at : Nat
  deriving DecidableEq, Repr

/-- A row of the `user_sessions` table. -/
structure UserSession where
  usuario : String
  secciones : Option String
  created_at : Nat
  deriving DecidableEq, Repr

/-- The database state: the three tables, each as a list of rows in insertion
order. -/
structure DB where
  predios : List Predio
  predio_logs : List PredioLog
  user_sessions : List UserSession
  deriving DecidableEq, Repr

/-- A JSON field of a request body: absent from the object, explicit `null`,
or a string value. -/
inductive JsonField where
  | absent
  | null
  | str (s : String)
  deriving DecidableEq, Repr

/-- Request body of `POST /predios`:
`{ id_predio, status, seccion?, usuario? }`. -/
structure PredioRequest where
  id_predio : JsonField
  status : JsonField
  seccion : Option String
  usuario : Option String
  deriving DecidableEq, Repr

/-- HTTP responses the handlers produce: an ok body, a 400 with an error
message, or a 500 `db_error`. -/
inductive Resp where
  | ok
  | badRequest (msg : String)
  | dbError
  deriving DecidableEq, Repr

/-- JS truthiness test `!id_predio`: absent, `null` and the empty string are
all falsy, so only a non-empty string is a usable id. -/
def presentId : JsonField → Option String
  | .str s => if s = "" then none else some s
  | _ => none

/-- Destructuring default `status = 'neutral'` on `req.body`: the default
applies only when the field is absent (JS defaults fire on `undefined`, not on
`null`), so an explicit `null` stays `null`. -/
def effStatus : JsonField → Option String
  | .absent => some "neutral"
  | .null => none
  | .str s => some s

/-- The status check list `['rojo', 'azul', 'neutral']`. -/
def recognizedStatuses : List String := ["rojo", "azul", "neutral"]

/-- `['rojo','azul','neutral'].includes(status)`; `includes(null)` is false. -/
def statusOk : Option String → Bool
  | some s => recognizedStatuses.contains s
  | none => false

/-- `insert into predios ... on conflict (id_predio) do update set ...`:
replace the row(s) carrying the same id when one exists, append otherwise. -/
def upsertPredio (l : List Predio) (p : Predio) : List Predio :=
  if l.any (fun q => q.id_predio == p.id_predio) then
    l.map (fun q => if q.id_predio == p.id_predio then p else q)
  else
    l ++ [p]

/-- `POST /predios`. Validation happens before any query; then the upsert into
`predios` runs, then a separate insert into `predio_logs` with no surrounding
transaction. `logOk` models whether that second insert succeeds; when it
fails the handler answers `db_error` but the upsert is not rolled back. -/
def postPredios (db : DB) (r : PredioRequest) (now : Nat) (logOk : Bool) :
    Resp × DB :=
  match presentId r.id_predio with
  | none => (.badRequest "id_predio requerido", db)
  | some pid =>
    match effStatus r.status with
    | none => (.badRequest "status invalido", db)
    | some st =>
      if recognizedStatuses.contains st then
        let db1 : DB := { db with predios := upsertPredio db.predios ⟨pid, st, r.seccion⟩ }
        if logOk then
          (.ok, { db1 with
                   predio_logs := db1.predio_logs ++ [⟨pid, st, r.seccion, r.usuario, now⟩] })
        else
          (.dbError, db1)
      else (.badRequest "status invalido", db)

/-- JS `String.prototype.split(',')` over the character list: the empty
string splits to one empty field, and every comma starts a new field. -/
def splitComma : List Char → List (List Char)
  | [] => [[]]
  | c :: cs =>
    if c = ',' then [] :: splitComma cs
    else
      match splitComma cs with
      | [] => [[c]]
      | h :: t => (c :: h) :: t

/-- JS `String.prototype.trim()`: drop whitespace from both ends. -/
def trimChars (cl : List Char) : List Char :=
  ((cl.dropWhile Char.isWhitespace).reverse.dropWhile Char.isWhitespace).reverse

/-- `(req.query.secciones || '').split(',').map(s => s.trim()).filter(Boolean)`:
`none` models an absent query parameter; `filter(Boolean)` drops the fields
that are empty after trimming. -/
def parseSecciones (q : Option String) : List String :=
  (((splitComma (q.getD "").data).map (fun cl => trimChars cl)).filter
    (fun cl => !cl.isEmpty)).map (fun cl => String.mk cl)

/-- `GET /predios`: with a non-empty secciones filter the query is
`select id_predio, status from predios where seccion = any($1)` — a NULL
`seccion` column never matches `= any`; otherwise all rows are returned. -/
def getPredios (db : DB) (q : Option String) : List (String × String) :=
  let secs := parseSecciones q
  let rows :=
    if secs.isEmpty then db.predios
    else db.predios.filter (fun p =>
      match p.seccion with
      | some s => secs.contains s
      | none => false)
  rows.map (fun p => (p.id_predio, p.status))

/-- `POST /login`. -/
def postLogin (db : DB) (usuario : JsonField) (secciones : Option String)
    (now : Nat) : Resp × DB :=
  match presentId usuario with
  | none => (.badRequest "usuario requerido", db)
  | some u => (.ok, { db with user_sessions := db.user_sessions ++ [⟨u, secciones, now⟩] })

/-- The row of `l` with the greatest `created_at`, later rows winning ties:
models `order by created_at desc limit 1`. -/
def pickLatest : List PredioLog → Option PredioLog
  | [] => none
  | l :: ls =>
    match pickLatest ls with
    | none => some l
    | some m => if l.created_at > m.created_at then some l else some m

/-- The correlated subquery of `GET /stats`:
`select seccion from predio_logs pl where pl.id_predio = p.id_predio and
pl.seccion is not null order by pl.created_at desc limit 1`. -/
def lastLoggedSeccion (logs : List PredioLog) (pid : String) : Option String :=
  (pickLatest (logs.filter (fun l => l.id_predio == pid && l.seccion.isSome))).bind
    (fun l => l.seccion)

/-- `coalesce(p.seccion, <subquery over predio_logs>)` — the effective section
used by `GET /stats`. -/
def effectiveSeccion (db : DB) (p : Predio) : Option String :=
  match p.seccion with
  | some s => some s
  | none => lastLoggedSeccion db.predio_logs p.id_predio

/-- The sentinel label `'(sin seccion)'`. -/
def sentinelSeccion : String := "(sin seccion)"

/-- `coalesce(seccion, '(sin seccion)')` applied to the effective section. -/
def seccionLabel : Option String → String
  | some s => s
  | none => sentinelSeccion

/-- One row of the `GET /stats` result. -/
structure StatRow where
  seccion : String
  rojo : Nat
  azul : Nat
  neutral : Nat
  total : Nat
  deriving DecidableEq, Repr

/-- `count(*) filter (where status = s)`. -/
def countStatus (l : List Predio) (s : String) : Nat :=
  (l.filter (fun p => p.status == s)).length

/-- Ordering of group keys by their output label (`order by seccion` resolves
to the coalesced output column, plain string comparison). -/
def labelLE (a b : Option String) : Prop := seccionLabel a ≤ seccionLabel b

instance : DecidableRel labelLE :=
  fun a b => inferInstanceAs (Decidable (seccionLabel a ≤ seccionLabel b))

instance : IsTotal (Option String) labelLE :=
  ⟨fun a b => le_total (seccionLabel a) (seccionLabel b)⟩

instance : IsTrans (Option String) labelLE :=
  ⟨fun _ _ _ h1 h2 => le_trans h1 h2⟩

/-- The distinct group keys of `GET /stats` (`group by seccion`, NULLs forming
one group), in output order. -/
def statKeys (db : DB) : List (Option String) :=
  ((db.predios.map (fun p => effectiveSeccion db p)).dedup).insertionSort labelLE

/-- The rows of `predios` falling into the group of key `k`. -/
def groupOf (db : DB) (k : Option String) : List Predio :=
  db.predios.filter (fun p => effectiveSeccion db p == k)

/-- `GET /stats`: per-section counts over the effective sections. -/
def getStats (db : DB) : List StatRow :=
  (statKeys db).map (fun k =>
    { seccion := seccionLabel k
      rojo := countStatus (groupOf db k) "rojo"
      azul := countStatus (groupOf db k) "azul"
      neutral := countStatus (groupOf db k) "neutral"
      total := (groupOf db k).length })

/-- The distinct actors of `user_sessions` (`group by usuario`) in first
appearance order. -/
def actorsOf (ss : List UserSession) : List String :=
  (ss.map (fun s => s.usuario)).dedup

/-- The session rows of one actor. -/
def sessionsOf (ss : List UserSession) (a : String) : List UserSession :=
  ss.filter (fun s => s.usuario == a)

/-- `max(created_at)` over one actor's rows. -/
def lastSeenOf (ss : List UserSession) (a : String) : Nat :=
  (((sessionsOf ss a).map (fun s => s.created_at)).foldl max 0)

/-- `string_agg(distinct secciones, ',')`: NULL inputs are dropped and the
aggregate is NULL when no non-null value exists. -/
def aggSecciones (ss : List UserSession) (a : String) : Option String :=
  let vals := (((sessionsOf ss a).filterMap (fun s => s.secciones)).dedup)
  if vals.isEmpty then none else some (String.intercalate "," vals)

/-- One row of the `GET /users` result. -/
structure UserRow where
  usuario : String
  last_seen : Nat
  secciones : Option String
  deriving DecidableEq, Repr

/-- `order by last_seen desc`. -/
def lastSeenGE (a b : UserRow) : Prop := b.last_seen ≤ a.last_seen

instance : DecidableRel lastSeenGE :=
  fun a b => inferInstanceAs (Decidable (b.last_seen ≤ a.last_seen))

instance : IsTotal UserRow lastSeenGE :=
  ⟨fun a b => le_total b.last_seen a.last_seen⟩

instance : IsTrans UserRow lastSeenGE :=
  ⟨fun _ _ _ h1 h2 => le_trans h2 h1⟩

/-- `GET /users`: one row per distinct actor with last seen and aggregated
secciones, ordered by `last_seen` descending. -/
def getUsers (db : DB) : List UserRow :=
  ((actorsOf db.user_sessions).map (fun a =>
    { usuario := a
      last_seen := lastSeenOf db.user_sessions a
      secciones := aggSecciones db.user_sessions a : UserRow })).insertionSort lastSeenGE

/-- `order by created_at desc` on the change log. -/
def createdAtGE (a b : PredioLog) : Prop := b.created_at ≤ a.created_at

instance : DecidableRel createdAtGE :=
  fun a b => inferInstanceAs (Decidable (b.created_at ≤ a.created_at))

instance : IsTotal PredioLog createdAtGE :=
  ⟨fun a b => le_total b.created_at a.created_at⟩

instance : IsTrans PredioLog createdAtGE :=
  ⟨fun _ _ _ h1 h2 => le_trans h2 h1⟩

def sortLogsDesc (logs : List PredioLog) : List PredioLog :=
  logs.insertionSort createdAtGE

/-- `Math.min(parseInt(req.query.limit || '100', 10), 500)`: `none` models an
absent (or empty) limit parameter, defaulting to 100. There is no lower
clamp. -/
def effectiveLimit (requested : Option Int) : Int :=
  min (requested.getD 100) 500

/-- `GET /activity`: the effective limit is handed to `limit $1`; a negative
limit makes the store reject the query (PostgreSQL: `LIMIT must not be
negative`), surfaced as `db_error`. -/
def getActivity (db : DB) (requested : Option Int) :
    Except String (List PredioLog) :=
  let lim := effectiveLimit requested
  if lim < 0 then .error "db_error"
  else .ok ((sortLogsDesc db.predio_logs).take lim.toNat)

/-! Concrete database states used by witnesses and counterexamples. -/

/-- The empty database. -/
def dbEmpty : DB := ⟨[], [], []⟩

/-- A database with one log entry and no parcels. -/
def dbOneLog : DB := ⟨[], [⟨"P1", "rojo", some "356", none, 1⟩], []⟩

/-- A database where parcel P2 has no stored seccion but a logged one. -/
def dbSix : DB :=
  ⟨[⟨"P2", "azul", none⟩, ⟨"P1", "rojo", some "356"⟩],
   [⟨"P2", "neutral", some "357", some "u", 1⟩], []⟩

/-- A database with several sessions for one actor. -/
def dbUsers : DB :=
  ⟨[], [],
   [⟨"ana", some "1,2", 5⟩, ⟨"bob", none, 7⟩, ⟨"ana", some "3", 9⟩]⟩

/-- A valid write request for parcel P1 with status rojo. -/
def reqRojo : PredioRequest := ⟨.str "P1", .str "rojo", some "356", some "u"⟩

/-- A valid write request for parcel P1 with status azul. -/
def reqAzul : PredioRequest := ⟨.str "P1", .str "azul", none, none⟩

lemma sortLogsDesc_length (logs : List PredioLog) :
    (sortLogsDesc logs).length = logs.length :=
  (List.perm_insertionSort createdAtGE logs).length_eq

/-- C1 counterexample: the code computes `Math.min(limit, 500)` only — a
requested limit of 0 is not raised to 1, so zero rows come back even though a
log entry exists. -/
theorem c1_counterexample :
    getActivity dbOneLog (some 0) = Except.ok []
    ∧ dbOneLog.predio_logs.length = 1 := by
  constructor
  · rfl
  · rfl

/-- C1 amended: the effective limit for GET /activity is min(requested, 500);
values above 500 are capped to 500 and no nonnegative limit is rejected, but
there is no lower clamp — the rows returned are the first min(requested, 500)
of the log ordered by created_at descending, so a limit of 0 yields 0 rows. -/
theorem c1_amended_limit (db : DB) (n : Int) (h : 0 ≤ n) :
    getActivity db (some n)
      = Except.ok ((sortLogsDesc db.predio_logs).take (min n 500).toNat)
    ∧ ((sortLogsDesc db.predio_logs).take (min n 500).toNat).length
        = min (min n 500).toNat db.predio_logs.length
    ∧ ((sortLogsDesc db.predio_logs).take (min n 500).toNat).length ≤ 500 := by
  have h0 : (0 : Int) ≤ min n 500 := le_min h (by norm_num)
  refine ⟨?_, ?_, ?_⟩
  · simp only [getActivity, effectiveLimit, Option.getD_some]
    rw [if_neg (not_lt.mpr h0)]
  · rw [List.length_take, sortLogsDesc_length]
  · calc ((sortLogsDesc db.predio_logs).take (min n 500).toNat).length
        ≤ (min n 500).toNat := by
          rw [List.length_take]; exact min_le_left _ _
      _ ≤ (500 : Int).toNat := Int.toNat_le_toNat (min_le_right n 500)
      _ = 500 := rfl

theorem c1_amended_limit_witness :
    (0 : Int) ≤ 999
    ∧ getActivity dbOneLog (some 999)
        = Except.ok ((sortLogsDesc dbOneLog.predio_logs).take (min (999 : Int) 500).toNat) :=
  ⟨by decide, (c1_amended_limit dbOneLog 999 (by decide)).1⟩

/-- C5: a write whose parcel id is missing (absent, null or empty) or whose
status is not one of the three recognized values is answered with a 400
before any query runs, leaving the database unchanged, so a subsequent
unfiltered list shows no new row. -/
theorem c5_validation_rejects_before_storage (db : DB) (r : PredioRequest)
    (t : Nat) (b : Bool)
    (h : presentId r.id_predio = none ∨ statusOk (effStatus r.status) = false) :
    (∃ m, (postPredios db r t b).1 = Resp.badRequest m)
    ∧ (postPredios db r t b).2 = db
    ∧ getPredios (postPredios db r t b).2 none = getPredios db none := by
  have key : (∃ m, (postPredios db r t b).1 = Resp.badRequest m)
      ∧ (postPredios db r t b).2 = db := by
    rcases h with h | h
    · simp [postPredios, h]
    · cases hid : presentId r.id_predio with
      | none => simp [postPredios, hid]
      | some pid =>
        cases hst : effStatus r.status with
        | none => simp [postPredios, hid, hst]
        | some s =>
          rw [hst] at h
          simp only [statusOk] at h
          have h' : s ∉ recognizedStatuses := by simpa using h
          simp [postPredios, hid, hst, h']
  exact ⟨key.1, key.2, by rw [key.2]⟩

theorem c5_witness :
    (presentId (PredioRequest.mk (.str "P1") (.str "verde") none none).id_predio = none
      ∨ statusOk (effStatus (PredioRequest.mk (.str "P1") (.str "verde") none none).status) = false)
    ∧ ((∃ m, (postPredios dbEmpty ⟨.str "P1", .str "verde", none, none⟩ 3 true).1
          = Resp.badRequest m)
       ∧ (postPredios dbEmpty ⟨.str "P1", .str "verde", none, none⟩ 3 true).2 = dbEmpty
       ∧ getPredios (postPredios dbEmpty ⟨.str "P1", .str "verde", none, none⟩ 3 true).2 none
           = getPredios dbEmpty none) :=
  ⟨Or.inr (by decide),
   c5_validation_rejects_before_storage dbEmpty ⟨.str "P1", .str "verde", none, none⟩ 3 true
     (Or.inr (by decide))⟩

/-- C7: when the upsert into predios succeeds but the separate insert into
predio_logs fails, the caller gets the 500 db_error while the upserted row
persists and the log is unchanged — the two stores diverge. -/
theorem c7_log_failure_diverges (db : DB) (r : PredioRequest) (t : Nat)
    (pid st : String)
    (hid : presentId r.id_predio = some pid)
    (hst : effStatus r.status = some st)
    (hv : recognizedStatuses.contains st = true) :
    (postPredios db r t false).1 = Resp.dbError
    ∧ (postPredios db r t false).2.predios
        = upsertPredio db.predios ⟨pid, st, r.seccion⟩
    ∧ (postPredios db r t false).2.predio_logs = db.predio_logs := by
  have hv' : st ∈ recognizedStatuses := by simpa using hv
  simp [postPredios, hid, hst, hv']

theorem c7_witness :
    (postPredios dbEmpty reqRojo 3 false).1 = Resp.dbError
    ∧ (postPredios dbEmpty reqRojo 3 false).2.predios
        = upsertPredio dbEmpty.predios ⟨"P1", "rojo", reqRojo.seccion⟩
    ∧ (postPredios dbEmpty reqRojo 3 false).2.predio_logs = dbEmpty.predio_logs :=
  c7_log_failure_diverges dbEmpty reqRojo 3 "P1" "rojo" (by decide) (by decide) (by decide)

/-- C10: the neutral default applies only to an absent status field — an
explicit null status, or any unrecognized string, is rejected with no side
effects, while an absent status is accepted and stored as neutral. -/
theorem c10_null_status_rejected (db : DB) (r : PredioRequest) (t : Nat)
    (pid : String) (hid : presentId r.id_predio = some pid) :
    (r.status = JsonField.null →
      (postPredios db r t true).1 = Resp.badRequest "status invalido"
      ∧ (postPredios db r t true).2 = db)
    ∧ (∀ s, r.status = JsonField.str s → recognizedStatuses.contains s = false →
      (postPredios db r t true).1 = Resp.badRequest "status invalido"
      ∧ (postPredios db r t true).2 = db)
    ∧ (r.status = JsonField.absent →
      (postPredios db r t true).1 = Resp.ok
      ∧ (postPredios db r t true).2.predios
          = upsertPredio db.predios ⟨pid, "neutral", r.seccion⟩) := by
  have hneutral : "neutral" ∈ recognizedStatuses := by decide
  refine ⟨?_, ?_, ?_⟩
  · intro h
    simp [postPredios, hid, h, effStatus]
  · intro s h hv
    have hv' : s ∉ recognizedStatuses := by simpa using hv
    simp [postPredios, hid, h, effStatus, hv']
  · intro h
    simp [postPredios, hid, h, effStatus, hneutral]

theorem c10_witness :
    presentId (PredioRequest.mk (.str "P1") .null none none).id_predio = some "P1"
    ∧ ((postPredios dbEmpty ⟨.str "P1", .null, none, none⟩ 3 true).1
        = Resp.badRequest "status invalido"
       ∧ (postPredios dbEmpty ⟨.str "P1", .null, none, none⟩ 3 true).2 = dbEmpty) :=
  ⟨by decide,
   (c10_null_status_rejected dbEmpty ⟨.str "P1", .null, none, none⟩ 3 "P1" (by decide)).1 rfl⟩

/-- Number of rows of `l` carrying parcel id `pid`. -/
def countId (l : List Predio) (pid : String) : Nat :=
  (l.filter (fun p => p.id_predio == pid)).length

lemma countId_map_replace (l : List Predio) (p : Predio) :
    countId (l.map (fun q => if q.id_predio == p.id_predio then p else q))
        p.id_predio
      = countId l p.id_predio := by
  induction l with
  | nil => rfl
  | cons hd tl ih =>
    by_cases h : hd.id_predio == p.id_predio
    · simp only [countId, List.map_cons, List.filter_cons, h, if_true,
        beq_self_eq_true, List.length_cons] at ih ⊢
      omega
    · simp only [countId, List.map_cons, List.filter_cons, h, if_false,
        Bool.false_eq_true] at ih ⊢
      simpa [h] using ih

lemma countId_append (l1 l2 : List Predio) (pid : String) :
    countId (l1 ++ l2) pid = countId l1 pid + countId l2 pid := by
  simp [countId, List.filter_append]

lemma countId_eq_zero (l : List Predio) (pid : String)
    (h : l.any (fun q => q.id_predio == pid) = false) : countId l pid = 0 := by
  induction l with
  | nil => rfl
  | cons hd tl ih =>
    simp only [List.any_cons, Bool.or_eq_false_iff] at h
    simp only [countId, List.filter_cons, h.1, Bool.false_eq_true, if_false]
    exact ih h.2

lemma countId_upsert (l : List Predio) (p : Predio)
    (h : countId l p.id_predio ≤ 1) :
    countId (upsertPredio l p) p.id_predio = 1 := by
  unfold upsertPredio
  by_cases ha : l.any (fun q => q.id_predio == p.id_predio) = true
  · rw [if_pos ha, countId_map_replace]
    rcases List.any_eq_true.mp ha with ⟨q, hq, hqe⟩
    have hmem : q ∈ l.filter (fun q' => q'.id_predio == p.id_predio) :=
      List.mem_filter.mpr ⟨hq, hqe⟩
    have hge : 1 ≤ countId l p.id_predio := List.length_pos_of_mem hmem
    omega
  · rw [if_neg ha, countId_append,
      countId_eq_zero l _ (Bool.eq_false_iff.mpr ha)]
    simp [countId]

/-- C4: two accepted writes to the same parcel id leave exactly one row for
that id in predios (upsert semantics), while predio_logs gains exactly one
row per write — two writes, two new log rows. -/
theorem c4_upsert_once_log_twice (db : DB) (r1 r2 : PredioRequest)
    (t1 t2 : Nat) (pid st1 st2 : String)
    (hdup : countId db.predios pid ≤ 1)
    (h1 : presentId r1.id_predio = some pid)
    (hs1 : effStatus r1.status = some st1)
    (hv1 : st1 ∈ recognizedStatuses)
    (h2 : presentId r2.id_predio = some pid)
    (hs2 : effStatus r2.status = some st2)
    (hv2 : st2 ∈ recognizedStatuses) :
    (postPredios db r1 t1 true).1 = Resp.ok
    ∧ (postPredios (postPredios db r1 t1 true).2 r2 t2 true).1 = Resp.ok
    ∧ countId (postPredios (postPredios db r1 t1 true).2 r2 t2 true).2.predios
        pid = 1
    ∧ (postPredios (postPredios db r1 t1 true).2 r2 t2 true).2.predio_logs.length
        = db.predio_logs.length + 2 := by
  have e1 : postPredios db r1 t1 true
      = (Resp.ok,
         ⟨upsertPredio db.predios ⟨pid, st1, r1.seccion⟩,
          db.predio_logs ++ [⟨pid, st1, r1.seccion, r1.usuario, t1⟩],
          db.user_sessions⟩) := by
    simp [postPredios, h1, hs1, hv1]
  have e2 : postPredios
        (⟨upsertPredio db.predios ⟨pid, st1, r1.seccion⟩,
          db.predio_logs ++ [⟨pid, st1, r1.seccion, r1.usuario, t1⟩],
          db.user_sessions⟩ : DB) r2 t2 true
      = (Resp.ok,
         ⟨upsertPredio (upsertPredio db.predios ⟨pid, st1, r1.seccion⟩)
            ⟨pid, st2, r2.seccion⟩,
          (db.predio_logs ++ [⟨pid, st1, r1.seccion, r1.usuario, t1⟩])
            ++ [⟨pid, st2, r2.seccion, r2.usuario, t2⟩],
          db.user_sessions⟩) := by
    simp [postPredios, h2, hs2, hv2]
  have hc1 : countId (upsertPredio db.predios ⟨pid, st1, r1.seccion⟩) pid = 1 :=
    countId_upsert db.predios ⟨pid, st1, r1.seccion⟩ hdup
  have hc2 : countId (upsertPredio (upsertPredio db.predios ⟨pid, st1, r1.seccion⟩)
      ⟨pid, st2, r2.seccion⟩) pid = 1 :=
    countId_upsert _ ⟨pid, st2, r2.seccion⟩ (le_of_eq hc1)
  rw [e1]
  refine ⟨rfl, ?_, ?_, ?_⟩
  · rw [e2]
  · rw [e2]; exact hc2
  · rw [e2]; simp

theorem c4_witness :
    countId dbEmpty.predios "P1" ≤ 1
    ∧ ((postPredios dbEmpty reqRojo 1 true).1 = Resp.ok
       ∧ (postPredios (postPredios dbEmpty reqRojo 1 true).2 reqAzul 2 true).1
           = Resp.ok
       ∧ countId
           (postPredios (postPredios dbEmpty reqRojo 1 true).2 reqAzul 2 true).2.predios
           "P1" = 1
       ∧ (postPredios (postPredios dbEmpty reqRojo 1 true).2 reqAzul 2 true).2.predio_logs.length
           = dbEmpty.predio_logs.length + 2) :=
  ⟨by decide,
   c4_upsert_once_log_twice dbEmpty reqRojo reqAzul 1 2 "P1" "rojo" "azul"
     (by decide) (by decide) (by decide) (by decide) (by decide) (by decide)
     (by decide)⟩

/-- C6: with a non-empty secciones filter, GET /predios returns exactly the
parcels whose stored seccion column equals one of the requested values; a
parcel whose stored seccion is null is never part of such a filtered listing,
even when its section would be recoverable through the log fallback. -/
theorem c6_filter_uses_stored_seccion_only (db : DB) (q : String)
    (h : parseSecciones (some q) ≠ []) :
    getPredios db (some q)
      = (db.predios.filter (fun p =>
          decide (∃ s ∈ parseSecciones (some q), p.seccion = some s))).map
          (fun p => (p.id_predio, p.status))
    ∧ ∀ p ∈ db.predios, p.seccion = none →
        p ∉ db.predios.filter (fun p =>
          decide (∃ s ∈ parseSecciones (some q), p.seccion = some s)) := by
  constructor
  · have hne : (parseSecciones (some q)).isEmpty = false := by
      cases he : parseSecciones (some q) with
      | nil => exact absurd he h
      | cons a l => rfl
    simp only [getPredios, hne, Bool.false_eq_true, if_false]
    congr 1
    apply List.filter_congr
    intro p _
    cases hp : p.seccion with
    | none => simp [hp]
    | some s => simp [hp, List.contains_iff_exists_mem_beq, eq_comm]
  · intro p _ hp hmem
    have := (List.mem_filter.mp hmem).2
    rw [hp] at this
    simp at this

theorem c6_witness :
    parseSecciones (some "356,357") ≠ []
    ∧ (getPredios dbSix (some "356,357")
        = (dbSix.predios.filter (fun p =>
            decide (∃ s ∈ parseSecciones (some "356,357"), p.seccion = some s))).map
            (fun p => (p.id_predio, p.status))
       ∧ ∀ p ∈ dbSix.predios, p.seccion = none →
          p ∉ dbSix.predios.filter (fun p =>
            decide (∃ s ∈ parseSecciones (some "356,357"), p.seccion = some s))) :=
  ⟨by decide, c6_filter_uses_stored_seccion_only dbSix "356,357" (by decide)⟩

lemma pickLatest_mem : ∀ {l : List PredioLog} {m : PredioLog},
    pickLatest l = some m → m ∈ l := by
  intro l
  induction l with
  | nil => intro m h; cases h
  | cons hd tl ih =>
    intro m h
    cases hp : pickLatest tl with
    | none =>
      simp only [pickLatest, hp] at h
      cases h
      exact List.mem_cons_self hd tl
    | some m2 =>
      simp only [pickLatest, hp] at h
      by_cases hc : hd.created_at > m2.created_at
      · rw [if_pos hc] at h
        cases h
        exact List.mem_cons_self hd tl
      · rw [if_neg hc] at h
        cases h
        exact List.mem_cons_of_mem hd (ih hp)

lemma pickLatest_eq_none : ∀ {l : List PredioLog},
    pickLatest l = none → l = [] := by
  intro l h
  cases l with
  | nil => rfl
  | cons hd tl =>
    exfalso
    cases hp : pickLatest tl with
    | none =>
      simp only [pickLatest, hp] at h
      cases h
    | some m2 =>
      simp only [pickLatest, hp] at h
      by_cases hc : hd.created_at > m2.created_at
      · rw [if_pos hc] at h; cases h
      · rw [if_neg hc] at h; cases h

lemma pickLatest_le : ∀ {l : List PredioLog} {m : PredioLog},
    pickLatest l = some m → ∀ x ∈ l, x.created_at ≤ m.created_at := by
  intro l
  induction l with
  | nil => intro m _ x hx; cases hx
  | cons hd tl ih =>
    intro m h x hx
    cases hp : pickLatest tl with
    | none =>
      simp only [pickLatest, hp] at h
      cases h
      rcases List.mem_cons.mp hx with rfl | hx'
      · exact le_refl _
      · rw [pickLatest_eq_none hp] at hx'; cases hx'
    | some m2 =>
      simp only [pickLatest, hp] at h
      by_cases hc : hd.created_at > m2.created_at
      · rw [if_pos hc] at h
        cases h
        rcases List.mem_cons.mp hx with rfl | hx'
        · exact le_refl _
        · exact le_trans (ih hp x hx') (le_of_lt hc)
      · rw [if_neg hc] at h
        cases h
        rcases List.mem_cons.mp hx with rfl | hx'
        · exact le_of_not_lt hc
        · exact ih hp x hx'

lemma lastLoggedSeccion_some {logs : List PredioLog} {pid s : String}
    (h : lastLoggedSeccion logs pid = some s) :
    ∃ m ∈ logs, m.id_predio = pid ∧ m.seccion = some s ∧
      ∀ l ∈ logs, l.id_predio = pid → l.seccion ≠ none →
        l.created_at ≤ m.created_at := by
  unfold lastLoggedSeccion at h
  cases hp : pickLatest (logs.filter (fun l => l.id_predio == pid && l.seccion.isSome)) with
  | none => rw [hp] at h; cases h
  | some m =>
    rw [hp] at h
    simp only [Option.some_bind] at h
    have hm := List.mem_filter.mp (pickLatest_mem hp)
    have hid : m.id_predio = pid := by
      have := hm.2
      simp only [Bool.and_eq_true, beq_iff_eq] at this
      exact this.1
    refine ⟨m, hm.1, hid, h, ?_⟩
    intro l hl hlid hlsec
    exact pickLatest_le hp l (List.mem_filter.mpr
      ⟨hl, by simp [hlid, Option.isSome_iff_ne_none, hlsec]⟩)

lemma lastLoggedSeccion_none {logs : List PredioLog} {pid : String}
    (h : lastLoggedSeccion logs pid = none) :
    ∀ l ∈ logs, l.id_predio = pid → l.seccion = none := by
  intro l hl hid
  by_contra hne
  have hmem : l ∈ logs.filter (fun l => l.id_predio == pid && l.seccion.isSome) :=
    List.mem_filter.mpr ⟨hl, by simp [hid, Option.isSome_iff_ne_none, hne]⟩
  unfold lastLoggedSeccion at h
  cases hp : pickLatest (logs.filter (fun l => l.id_predio == pid && l.seccion.isSome)) with
  | none =>
    rw [pickLatest_eq_none hp] at hmem
    cases hmem
  | some m =>
    rw [hp] at h
    simp only [Option.some_bind] at h
    have hms := (List.mem_filter.mp (pickLatest_mem hp)).2
    simp only [Bool.and_eq_true] at hms
    rw [h] at hms
    cases hms.2

/-- C2: the effective section used by GET /stats is the parcel's stored
seccion when non-null; otherwise the seccion of a most recent log entry for
that parcel id with non-null seccion, when one exists; otherwise it is
undefined and the parcel is reported under the sentinel label. -/
theorem c2_effective_section (db : DB) (p : Predio) :
    (∀ s, p.seccion = some s → effectiveSeccion db p = some s)
    ∧ (p.seccion = none →
        (∀ s, effectiveSeccion db p = some s →
          ∃ m ∈ db.predio_logs, m.id_predio = p.id_predio ∧ m.seccion = some s ∧
            ∀ l ∈ db.predio_logs, l.id_predio = p.id_predio → l.seccion ≠ none →
              l.created_at ≤ m.created_at)
        ∧ (effectiveSeccion db p = none →
            seccionLabel (effectiveSeccion db p) = sentinelSeccion
            ∧ ∀ l ∈ db.predio_logs, l.id_predio = p.id_predio →
                l.seccion = none)) := by
  refine ⟨?_, ?_⟩
  · intro s hs
    simp [effectiveSeccion, hs]
  · intro hnone
    have heff : effectiveSeccion db p = lastLoggedSeccion db.predio_logs p.id_predio := by
      simp [effectiveSeccion, hnone]
    constructor
    · intro s hs
      rw [heff] at hs
      exact lastLoggedSeccion_some hs
    · intro hs
      rw [hs]
      rw [heff] at hs
      exact ⟨rfl, lastLoggedSeccion_none hs⟩

theorem c2_witness :
    ∃ m ∈ dbSix.predio_logs, m.id_predio = "P2" ∧ m.seccion = some "357" ∧
      ∀ l ∈ dbSix.predio_logs, l.id_predio = "P2" → l.seccion ≠ none →
        l.created_at ≤ m.created_at :=
  ((c2_effective_section dbSix ⟨"P2", "azul", none⟩).2 rfl).1 "357" (by decide)

lemma countStatus_cons (hd : Predio) (tl : List Predio) (s : String) :
    countStatus (hd :: tl) s
      = (if hd.status == s then 1 else 0) + countStatus tl s := by
  simp only [countStatus, List.filter_cons]
  split
  · simp [Nat.add_comm]
  · simp

lemma countStatus_three (l : List Predio)
    (h : ∀ p ∈ l, p.status ∈ recognizedStatuses) :
    countStatus l "rojo" + countStatus l "azul" + countStatus l "neutral"
      = l.length := by
  induction l with
  | nil => rfl
  | cons hd tl ih =>
    have hh := h hd (List.mem_cons_self hd tl)
    have ih' := ih (fun p hp => h p (List.mem_cons_of_mem hd hp))
    simp only [recognizedStatuses, List.mem_cons, List.not_mem_nil, or_false] at hh
    rcases hh with h1 | h1 | h1 <;>
      simp only [countStatus_cons, h1, List.length_cons] <;>
      simp <;> omega

lemma length_filter_add_length_filter_not {α : Type} (p : α → Bool)
    (l : List α) :
    (l.filter p).length + (l.filter (fun x => !(p x))).length = l.length := by
  induction l with
  | nil => rfl
  | cons hd tl ih =>
    cases hp : p hd <;> simp [List.filter_cons, hp] <;> omega

lemma sum_group_lengths {α β : Type} [BEq β] [LawfulBEq β] (f : α → β) :
    ∀ (keys : List β) (l : List α), keys.Nodup → (∀ x ∈ l, f x ∈ keys) →
      (keys.map (fun k => (l.filter (fun x => f x == k)).length)).sum
        = l.length := by
  intro keys
  induction keys with
  | nil =>
    intro l _ hcov
    have hl : l = [] :=
      List.eq_nil_iff_forall_not_mem.mpr
        (fun a ha => absurd (hcov a ha) (List.not_mem_nil _))
    simp [hl]
  | cons k ks ih =>
    intro l hnd hcov
    have hk : k ∉ ks := (List.nodup_cons.mp hnd).1
    have hnd' : ks.Nodup := (List.nodup_cons.mp hnd).2
    have hmap : ∀ k' ∈ ks,
        ((l.filter (fun x => !(f x == k))).filter (fun x => f x == k'))
          = l.filter (fun x => f x == k') := by
      intro k' hk'
      rw [List.filter_filter]
      apply List.filter_congr
      intro x _
      by_cases hfx : f x = k'
      · have hne : (f x == k) = false := by
          refine beq_eq_false_iff_ne.mpr ?_
          rw [hfx]
          intro hkk
          exact hk (hkk ▸ hk')
        simp [hfx, hne]
        intro hkk
        exact hk (hkk ▸ hk')
      · have hf : (f x == k') = false := beq_eq_false_iff_ne.mpr hfx
        simp [hf]
    have hcov2 : ∀ x ∈ l.filter (fun x => !(f x == k)), f x ∈ ks := by
      intro x hx
      have hx' := List.mem_filter.mp hx
      have : f x ≠ k := by
        have := hx'.2
        simp only [Bool.not_eq_true', beq_eq_false_iff_ne, ne_eq] at this
        exact this
      rcases List.mem_cons.mp (hcov x hx'.1) with h | h
      · exact absurd h this
      · exact h
    have ih' := ih (l.filter (fun x => !(f x == k))) hnd' hcov2
    have hmap' : ks.map (fun k' => (l.filter (fun x => f x == k')).length)
        = ks.map (fun k' =>
            (((l.filter (fun x => !(f x == k))).filter
              (fun x => f x == k'))).length) := by
      apply List.map_congr_left
      intro k' hk'
      rw [hmap k' hk']
    rw [List.map_cons, List.sum_cons, hmap', ih']
    exact length_filter_add_length_filter_not (fun x => f x == k) l

/-- C3: when every stored status is one of the three recognized values,
summarize conserves counts: each group's rojo, azul and neutral counts sum to
its total, and the totals over all groups sum to the number of parcels. -/
theorem c3_counts_conserved (db : DB)
    (h : ∀ p ∈ db.predios, p.status ∈ recognizedStatuses) :
    (∀ row ∈ getStats db, row.rojo + row.azul + row.neutral = row.total)
    ∧ ((getStats db).map (fun r => r.total)).sum = db.predios.length := by
  constructor
  · intro row hrow
    rw [getStats] at hrow
    rcases List.mem_map.mp hrow with ⟨k, _, rfl⟩
    exact countStatus_three (groupOf db k)
      (fun p hp => h p (List.mem_filter.mp hp).1)
  · rw [getStats, List.map_map]
    have hperm : (statKeys db).Perm
        ((db.predios.map (fun p => effectiveSeccion db p)).dedup) :=
      List.perm_insertionSort labelLE _
    have hsum := (hperm.map
      (fun k => (db.predios.filter
        (fun p => effectiveSeccion db p == k)).length)).sum_eq
    have hcov : ∀ x ∈ db.predios,
        effectiveSeccion db x
          ∈ (db.predios.map (fun p => effectiveSeccion db p)).dedup :=
      fun x hx => List.mem_dedup.mpr (List.mem_map_of_mem _ hx)
    have hmain := sum_group_lengths (fun p => effectiveSeccion db p)
      ((db.predios.map (fun p => effectiveSeccion db p)).dedup)
      db.predios (List.nodup_dedup _) hcov
    calc ((statKeys db).map
          ((fun r : StatRow => r.total) ∘ (fun k =>
            { seccion := seccionLabel k
              rojo := countStatus (groupOf db k) "rojo"
              azul := countStatus (groupOf db k) "azul"
              neutral := countStatus (groupOf db k) "neutral"
              total := (groupOf db k).length : StatRow }))).sum
        = ((statKeys db).map
            (fun k => (db.predios.filter
              (fun p => effectiveSeccion db p == k)).length)).sum := rfl
      _ = (((db.predios.map (fun p => effectiveSeccion db p)).dedup).map
            (fun k => (db.predios.filter
              (fun p => effectiveSeccion db p == k)).length)).sum := hsum
      _ = db.predios.length := hmain

theorem c3_witness :
    (∀ p ∈ dbSix.predios, p.status ∈ recognizedStatuses)
    ∧ ((∀ row ∈ getStats dbSix, row.rojo + row.azul + row.neutral = row.total)
       ∧ ((getStats dbSix).map (fun r => r.total)).sum
           = dbSix.predios.length) :=
  ⟨by decide, c3_counts_conserved dbSix (by decide)⟩

/-- C8: the groups of GET /stats come out ordered by section label ascending,
the sentinel label participating in the string order like any other label. -/
theorem c8_groups_sorted_by_label (db : DB) :
    List.Sorted (fun a b : String => a ≤ b)
      ((getStats db).map (fun r => r.seccion)) := by
  rw [getStats, List.map_map]
  have hs : List.Sorted labelLE (statKeys db) :=
    List.sorted_insertionSort labelLE _
  exact List.Pairwise.map _ (fun a b hab => hab) hs

lemma le_foldl_max : ∀ (l : List Nat) (a : Nat), a ≤ l.foldl max a := by
  intro l
  induction l with
  | nil => intro a; exact le_refl a
  | cons hd tl ih =>
    intro a
    exact le_trans (le_max_left a hd) (ih (max a hd))

lemma foldl_max_le_of_mem :
    ∀ (l : List Nat) (a x : Nat), x ∈ l → x ≤ l.foldl max a := by
  intro l
  induction l with
  | nil => intro a x hx; cases hx
  | cons hd tl ih =>
    intro a x hx
    rcases List.mem_cons.mp hx with rfl | hx'
    · exact le_trans (le_max_right a x) (le_foldl_max tl (max a x))
    · exact ih (max a hd) x hx'

lemma foldl_max_eq_or_mem :
    ∀ (l : List Nat) (a : Nat), l.foldl max a = a ∨ l.foldl max a ∈ l := by
  intro l
  induction l with
  | nil => intro a; left; rfl
  | cons hd tl ih =>
    intro a
    simp only [List.foldl_cons]
    rcases ih (max a hd) with h | h
    · rw [h]
      rcases max_choice a hd with h2 | h2
      · left; exact h2
      · right; rw [h2]; exact List.mem_cons_self hd tl
    · right; exact List.mem_cons_of_mem hd h

lemma mem_actorsOf (ss : List UserSession) (a : String) :
    a ∈ actorsOf ss ↔ ∃ s ∈ ss, s.usuario = a := by
  simp [actorsOf, List.mem_dedup, List.mem_map]

/-- C9: GET /users has one row per distinct actor — an actor appears exactly
when it has a session row — each row's last_seen is the maximum created_at
over that actor's rows and is attained by one of them, its secciones is the
comma-joined distinct set of the actor's non-null secciones values, and the
rows are ordered by last_seen descending. -/
theorem c9_actor_directory (db : DB) :
    ((getUsers db).map (fun r => r.usuario)).Nodup
    ∧ (∀ a, (∃ r ∈ getUsers db, r.usuario = a)
        ↔ ∃ s ∈ db.user_sessions, s.usuario = a)
    ∧ (∀ r ∈ getUsers db,
        (∃ s ∈ db.user_sessions, s.usuario = r.usuario
          ∧ s.created_at = r.last_seen)
        ∧ (∀ s ∈ db.user_sessions, s.usuario = r.usuario →
            s.created_at ≤ r.last_seen)
        ∧ r.secciones = aggSecciones db.user_sessions r.usuario)
    ∧ List.Sorted lastSeenGE (getUsers db) := by
  have hperm : (getUsers db).Perm
      ((actorsOf db.user_sessions).map (fun a =>
        { usuario := a
          last_seen := lastSeenOf db.user_sessions a
          secciones := aggSecciones db.user_sessions a : UserRow })) :=
    List.perm_insertionSort lastSeenGE _
  refine ⟨?_, ?_, ?_, ?_⟩
  · have h1 : (((actorsOf db.user_sessions).map (fun a =>
        { usuario := a
          last_seen := lastSeenOf db.user_sessions a
          secciones := aggSecciones db.user_sessions a : UserRow })).map
          (fun r => r.usuario))
        = actorsOf db.user_sessions := by
      rw [List.map_map]
      exact List.map_id _
    refine ((hperm.map (fun r => r.usuario)).nodup_iff).mpr ?_
    rw [h1]
    exact List.nodup_dedup _
  · intro a
    constructor
    · rintro ⟨r, hr, hra⟩
      rcases List.mem_map.mp (hperm.mem_iff.mp hr) with ⟨a', ha', hmk⟩
      have : a' = a := by rw [← hra, ← hmk]
      exact (mem_actorsOf db.user_sessions a).mp (this ▸ ha')
    · intro hs
      have ha : a ∈ actorsOf db.user_sessions :=
        (mem_actorsOf db.user_sessions a).mpr hs
      exact ⟨_, hperm.mem_iff.mpr (List.mem_map_of_mem _ ha), rfl⟩
  · intro r hr
    rcases List.mem_map.mp (hperm.mem_iff.mp hr) with ⟨a, ha, rfl⟩
    have hub : ∀ s ∈ db.user_sessions, s.usuario = a →
        s.created_at ≤ lastSeenOf db.user_sessions a := by
      intro s hs hsu
      have hsg : s ∈ sessionsOf db.user_sessions a :=
        List.mem_filter.mpr ⟨hs, by simp [hsu]⟩
      exact foldl_max_le_of_mem _ 0 _ (List.mem_map_of_mem _ hsg)
    refine ⟨?_, hub, rfl⟩
    rcases (mem_actorsOf db.user_sessions a).mp ha with ⟨s0, hs0, hs0u⟩
    rcases foldl_max_eq_or_mem
        ((sessionsOf db.user_sessions a).map (fun s => s.created_at)) 0 with
      h0 | hmem
    · refine ⟨s0, hs0, hs0u, ?_⟩
      have hle := hub s0 hs0 hs0u
      simp only [lastSeenOf] at *
      omega
    · rcases List.mem_map.mp hmem with ⟨s, hsg, hc⟩
      have hsf := List.mem_filter.mp hsg
      have hsu : s.usuario = a := by
        have := hsf.2
        simpa using this
      exact ⟨s, hsf.1, hsu, hc⟩
  · exact List.sorted_insertionSort lastSeenGE _

theorem c9_witness : List.Sorted lastSeenGE (getUsers dbUsers) :=
  (c9_actor_directory dbUsers).2.2.2
